import Mathlib

/-!
A shallow embedding of the gnome-spotlight wallpaper tool (`main.go` and
`api/microsoft.go`).  The pure logic — locale parsing, response decoding,
file-name derivation, the retention policy — is translated directly from
the Go source.  The external world (filesystem, HTTP transport, the dconf
store, the JSON text reader of `encoding/json`) is modelled as explicit
state and oracles threaded through the functions: a directory is the list
of its entries, an HTTP response is its status and payload, a dconf write
is a call to a supplied `store` oracle.  Strings are handled at the
character-list level so that everything evaluates.
-/

namespace Spotlight

/-! ### Locale resolver (api/microsoft.go, `Get`, lines 41-59) -/

/-- Go `strings.Split` restricted to a single-character separator, at the
character-list level: the result is the list of maximal runs of `s` between
occurrences of `sep`.  As in Go, the result is never the empty list (an
empty input yields `[[]]`). -/
def splitOnC (sep : Char) : List Char → List (List Char)
  | [] => [[]]
  | c :: cs =>
    match splitOnC sep cs with
    | [] => [[]]
    | h :: t => if c = sep then [] :: h :: t else (c :: h) :: t

/-- Go `strings.ReplaceAll(s, "_", "-")` at the character level. -/
def replUnderscore (s : List Char) : List Char :=
  s.map (fun c => if c = '_' then '-' else c)

/-- The locale-resolution step of `microsoft.Get` (api/microsoft.go lines
41-59): split the `LANG` value on `.` and take the first segment with `_`
replaced by `-` as the locale; split the locale on `-` and take the last
segment as the country.  The two `error` branches mirror the Go code
exactly: each fires only when the corresponding split returned an empty
list. -/
def resolveLocale (lang : List Char) : Except String (List Char × List Char) :=
  let l := splitOnC '.' lang
  if l.length ≠ 0 then
    let locale := replUnderscore (l.headD [])
    let c := splitOnC '-' locale
    if c.length ≠ 0 then
      Except.ok (locale, c.getLastD [])
    else
      Except.error "failed to parse country code from locale"
  else
    Except.error "failed to parse locale from LANG"

/-! ### Metadata client (api/microsoft.go, `Get`, lines 61-96)

The `encoding/json` text reader is external library code; a decoded JSON
document is represented by the `Json` type below and text parsing is an
oracle `parse : String → Option Json` supplied to the client.  Decoding a
`Json` value into the two Go struct types (`body` and `metadata`) is
translated field by field: a JSON object key is matched against a struct
field name case-insensitively, keys are processed in order so the last
matching key wins, a missing key or a `null` leaves the field at its
current (zero) value, and a shape mismatch is a decode error. -/

/-- A decoded JSON document.  Numbers play no role in the claims and are
carried as integers. -/
inductive Json where
  | null
  | bool (b : Bool)
  | num (n : Int)
  | str (s : String)
  | arr (elems : List Json)
  | obj (fields : List (String × Json))

/-- Go `encoding/json` field-name matching (`strings.EqualFold` on ASCII
names): case-insensitive equality. -/
def eqFold (a b : String) : Bool :=
  a.data.map Char.toLower == b.data.map Char.toLower

/-- The JSON value Go decoding assigns to struct field `fname` from an
object's key list: keys are processed in order and each matching key
overwrites the field, so the last matching key wins. -/
def jsonField (fname : String) (fields : List (String × Json)) : Option Json :=
  ((fields.filter (fun kv => eqFold kv.1 fname)).map (fun kv => kv.2)).getLast?

/-- Go decoding of a JSON value into a `string` struct field currently
holding `cur`: a JSON string replaces the value, `null` is a no-op,
anything else is a decode error. -/
def decodeString (cur : String) : Json → Option String
  | .str s => some s
  | .null => some cur
  | _ => none

/-- Decoding of the `landscapeImage` level of the `metadata` struct of
api/microsoft.go: an object whose `asset` key holds a string. -/
def decodeLandscapeImage (cur : String) : Json → Option String
  | .obj fs =>
    match jsonField "Asset" fs with
    | none => some cur
    | some v => decodeString cur v
  | .null => some cur
  | _ => none

/-- Decoding of the `ad` level of the `metadata` struct. -/
def decodeAd (cur : String) : Json → Option String
  | .obj fs =>
    match jsonField "LandscapeImage" fs with
    | none => some cur
    | some v => decodeLandscapeImage cur v
  | .null => some cur
  | _ => none

/-- Decoding of the `metadata` struct (`ad.landscapeImage.asset`); the
result is the asset URL, `""` whenever a level is absent (the Go zero
value). -/
def decodeMetadata : Json → Option String
  | .obj fs =>
    match jsonField "Ad" fs with
    | none => some ""
    | some v => decodeAd "" v
  | .null => some ""
  | _ => none

/-- One element of `body.Batchrsp.Items`: a struct with a single string
field `Item`, itself holding JSON-encoded text. -/
structure BodyItem where
  item : String
deriving DecidableEq

/-- Decoding of one `Items` element. -/
def decodeBodyItem : Json → Option BodyItem
  | .obj fs =>
    match jsonField "Item" fs with
    | none => some ⟨""⟩
    | some v => (decodeString "" v).map BodyItem.mk
  | .null => some ⟨""⟩
  | _ => none

/-- Decoding of the `Items` slice: an array decodes element-wise, `null`
decodes to the empty (nil) slice. -/
def decodeItems : Json → Option (List BodyItem)
  | .arr es => es.mapM decodeBodyItem
  | .null => some []
  | _ => none

/-- Decoding of the `Batchrsp` level of the `body` struct. -/
def decodeBatchrsp (cur : List BodyItem) : Json → Option (List BodyItem)
  | .obj fs =>
    match jsonField "Items" fs with
    | none => some cur
    | some v => decodeItems v
  | .null => some cur
  | _ => none

/-- Decoding of the outer `body` envelope of api/microsoft.go
(`batchrsp.items`); the result is the items list. -/
def decodeBody : Json → Option (List BodyItem)
  | .obj fs =>
    match jsonField "Batchrsp" fs with
    | none => some []
    | some v => decodeBatchrsp [] v
  | .null => some []
  | _ => none

/-- The response-processing part of `microsoft.Get` (api/microsoft.go lines
73-95), from the HTTP status and response text to the image URL: require
status 200, decode the outer envelope, fail when the items list is empty,
re-parse the first item's embedded string and decode it into `metadata`,
returning `ad.landscapeImage.asset`.  The same `parse` oracle models both
`json.Decoder` invocations, mirroring the two distinct decode steps. -/
def getImageUrl (parse : String → Option Json) (status : Nat) (resBody : String) :
    Except String String :=
  if status ≠ 200 then
    Except.error "received non-ok response code when querying microsoft api"
  else
    match parse resBody with
    | none => Except.error "decode microsoft api response body"
    | some j =>
      match decodeBody j with
      | none => Except.error "decode microsoft api response body"
      | some items =>
        if items.length = 0 then
          Except.error "microsoft api response body contains no images"
        else
          match parse ((items.headD ⟨""⟩).item) with
          | none => Except.error "decode microsoft api image metadata"
          | some ji =>
            match decodeMetadata ji with
            | none => Except.error "decode microsoft api image metadata"
            | some asset => Except.ok asset

/-! ### Retention manager (`cleanImages`, main.go lines 92-136) -/

/-- A directory entry as `cleanImages` sees it (`os.FileInfo`): a name and
a modification time. -/
structure FileInfo where
  name : List Char
  modTime : Nat
deriving DecidableEq

/-- The `imagePrefix` constant of main.go, the marker prepended to the
names of managed images. -/
def imagePfx : List Char := "gnome-spotlight_".data

/-- `strings.HasPrefix(entry.Name(), imagePrefix)`: the entry is a managed
image. -/
def isManaged (f : FileInfo) : Bool := imagePfx.isPrefixOf f.name

/-- The sort order of `cleanImages`: ascending modification time
(`a.ModTime().Compare(b.ModTime())`). -/
def timeLe (a b : FileInfo) : Prop := a.modTime ≤ b.modTime

instance : DecidableRel timeLe := fun a b => Nat.decLe a.modTime b.modTime

instance : IsTotal FileInfo timeLe := ⟨fun a b => Nat.le_total a.modTime b.modTime⟩

instance : IsTrans FileInfo timeLe := ⟨fun _ _ _ => Nat.le_trans⟩

/-- `cleanImages` of main.go (lines 92-136) as a function from the target
directory's entries to the entries that survive the cleanup: `preserve = 0`
touches nothing; otherwise the entries carrying the managed prefix are
sorted ascending by modification time and all but the `preserve` most
recent are removed.  Removal is by name, as `os.Remove` receives the
entry's name.  Go's `slices.SortFunc` is an unstable sort; `insertionSort`
here is one admissible ordering, and the retention claim assumes pairwise
distinct modification times, under which every admissible ordering
coincides. -/
def cleanImages (preserve : Nat) (dir : List FileInfo) : List FileInfo :=
  if preserve = 0 then dir
  else
    let files := dir.filter isManaged
    if files.length ≤ preserve then dir
    else
      let sorted := List.insertionSort timeLe files
      let toDelete := sorted.take (files.length - preserve)
      dir.filter (fun f => ! toDelete.any (fun d => d.name == f.name))

/-! ### Image acquirer (`newImage`, main.go lines 170-221) -/

/-- Go `path.Base`, the stdlib function `newImage` applies to the URL:
trailing slashes are dropped and the part after the last remaining `/` is
returned; the empty path gives `"."` and an all-slash path gives `"/"`. -/
def baseName (p : List Char) : List Char :=
  if p = [] then ['.']
  else
    let q := (p.reverse.dropWhile (fun c => c = '/')).reverse
    let r := (q.reverse.takeWhile (fun c => c ≠ '/')).reverse
    if r = [] then ['/'] else r

/-- How the `io.Copy` streaming of the HTTP body into the created file
ends: either the whole body is written, or the copy fails after a prefix of
`n` bytes has been written. -/
inductive CopyOutcome where
  | success
  | failAfter (n : Nat)

/-- What `os.Stat` reports for the target directory. -/
inductive DirStat where
  | missing
  | notDir
  | isDir

/-- `newImage` of main.go (lines 170-221) after the metadata URL has been
resolved, as a state transition on the target directory.  The directory is
the list of its files as `(name, content)` pairs with names relative to the
directory; `status` is the HTTP status of the image fetch and `body` its
payload; `dstat` is what `os.Stat` reports for the directory, `createOk`
whether `os.Create` succeeds, and `copy` how the `io.Copy` streaming ends.
The result pairs the Go return value — bytes written and the created
file's name — with the directory contents after the call.  The existence
check precedes creation, and a failed copy leaves the partially written
file in place, exactly as in the source. -/
def newImage (url body : List Char) (status : Nat) (dstat : DirStat)
    (createOk : Bool) (copy : CopyOutcome)
    (dir : List (List Char × List Char)) :
    Except String (Nat × List Char) × List (List Char × List Char) :=
  if status ≠ 200 then
    (Except.error "received non-ok response code when fetching image", dir)
  else
    match dstat with
    | .missing => (Except.error "stat image directory", dir)
    | .notDir => (Except.error "dir exists but is not a directory", dir)
    | .isDir =>
      let fname := imagePfx ++ baseName url
      if dir.any (fun f => f.1 == fname) then
        (Except.error "image already exists", dir)
      else if createOk then
        match copy with
        | .success => (Except.ok (body.length, fname), (fname, body) :: dir)
        | .failAfter n =>
          (Except.error "write image file", (fname, body.take n) :: dir)
      else
        (Except.error "create image file", dir)

/-! ### Setting writer (`writeToDconf`, main.go lines 139-167) -/

/-- The fixed, ordered dconf keys of `writeToDconf` (main.go lines
140-144). -/
def dconfKeys : List (List Char) :=
  ["/org/gnome/desktop/background/picture-uri".data,
   "/org/gnome/desktop/background/picture-uri-dark".data,
   "/org/gnome/desktop/screensaver/picture-uri".data]

/-- The value written for image path `p`: `file://<p>` wrapped in single
quotes, exactly as the `fmt.Sprintf` in the Go code produces it (the quotes
make dconf read the value as a string). -/
def dconfValue (p : List Char) : List Char :=
  Char.ofNat 39 :: ("file://".data ++ p ++ [Char.ofNat 39])

/-- The key loop of `writeToDconf`: for each key in order, issue
`dconf write key v`; the first failing invocation aborts the loop with an
error.  `store key v` says whether the external `dconf` call exits
successfully.  The result pairs the Go return value with the trace of
invocations actually issued, in order (the failing invocation included). -/
def writeKeysAux (store : List Char → List Char → Bool) (v : List Char) :
    List (List Char) → Except String Unit × List (List Char × List Char)
  | [] => (Except.ok (), [])
  | k :: ks =>
    if store k v then
      let r := writeKeysAux store v ks
      (r.1, (k, v) :: r.2)
    else
      (Except.error "execute dconf write", [(k, v)])

/-- `writeToDconf` of main.go (lines 139-167): write `dconfValue imagePath`
under each of the three fixed keys, in order, stopping at the first
failure. -/
def writeToDconf (store : List Char → List Char → Bool) (imagePath : List Char) :
    Except String Unit × List (List Char × List Char) :=
  writeKeysAux store (dconfValue imagePath) dconfKeys

/-! ### Concrete fixtures used by the witness theorems -/

/-- The inner metadata document of the specification's round-trip example,
as parsed JSON: `ad.landscapeImage.asset = http://x/img.jpg`. -/
def innerJson0 : Json :=
  Json.obj [("ad", Json.obj [("landscapeImage",
    Json.obj [("asset", Json.str "http://x/img.jpg")])])]

/-- A well-formed outer envelope whose single item embeds the text
`innerpayload`. -/
def outerJson0 : Json :=
  Json.obj [("batchrsp", Json.obj [("items",
    Json.arr [Json.obj [("item", Json.str "innerpayload")]])])]

/-- A parse oracle for the round-trip example: the outer response text
parses to `outerJson0` and the embedded item text to `innerJson0`. -/
def parse0 : String → Option Json := fun s =>
  if s = "outerpayload" then some outerJson0
  else if s = "innerpayload" then some innerJson0
  else none

/-- An outer envelope whose items list is empty. -/
def outerEmpty0 : Json :=
  Json.obj [("batchrsp", Json.obj [("items", Json.arr [])])]

/-- A parse oracle for the empty-items case. -/
def parseEmpty0 : String → Option Json := fun s =>
  if s = "outerpayload" then some outerEmpty0 else none

/-- A four-entry directory: three managed images with pairwise distinct
modification times and one foreign file. -/
def wdir : List FileInfo :=
  [⟨"gnome-spotlight_a.jpg".data, 1⟩, ⟨"gnome-spotlight_b.jpg".data, 3⟩,
   ⟨"wallpaper.png".data, 5⟩, ⟨"gnome-spotlight_c.jpg".data, 2⟩]

/-- A dconf oracle that accepts every write. -/
def storeOk : List Char → List Char → Bool := fun _ _ => true

/-- A dconf oracle that rejects writes to the second key
(`picture-uri-dark`) and accepts the rest. -/
def storeFailDark : List Char → List Char → Bool := fun k _ =>
  ! (k == "/org/gnome/desktop/background/picture-uri-dark".data)

/-! ## Helper lemmas -/

theorem splitOnC_ne_nil (sep : Char) (s : List Char) : splitOnC sep s ≠ [] := by
  induction s with
  | nil => simp [splitOnC]
  | cons c cs ih =>
    rw [splitOnC]
    cases h : splitOnC sep cs with
    | nil => exact absurd h ih
    | cons hd tl =>
      show (if c = sep then [] :: hd :: tl else (c :: hd) :: tl) ≠ []
      split <;> simp

theorem splitOnC_length_ne_zero (sep : Char) (s : List Char) :
    (splitOnC sep s).length ≠ 0 := by
  intro h
  exact splitOnC_ne_nil sep s (List.length_eq_zero.mp h)

theorem splitOnC_eq_single {sep : Char} {s : List Char} (h : sep ∉ s) :
    splitOnC sep s = [s] := by
  induction s with
  | nil => rfl
  | cons c cs ih =>
    have hc : ¬(c = sep) := fun e => h (by simp [e])
    have hcs : sep ∉ cs := fun m => h (List.mem_cons_of_mem c m)
    rw [splitOnC, ih hcs]
    simp [hc]

theorem splitOnC_append (sep : Char) (a b : List Char) :
    splitOnC sep (a ++ sep :: b) = splitOnC sep a ++ splitOnC sep b := by
  induction a with
  | nil =>
    rw [List.nil_append]
    cases h : splitOnC sep b with
    | nil => exact absurd h (splitOnC_ne_nil sep b)
    | cons hd tl =>
      conv_lhs => rw [splitOnC, h]
      simp [splitOnC]
  | cons c cs ih =>
    rw [List.cons_append, splitOnC, ih, splitOnC]
    cases h : splitOnC sep cs with
    | nil => exact absurd h (splitOnC_ne_nil sep cs)
    | cons hd tl =>
      simp only [List.cons_append]
      split <;> simp

theorem replUnderscore_eq_self {s : List Char} (h : '_' ∉ s) :
    replUnderscore s = s := by
  unfold replUnderscore
  conv_rhs => rw [← List.map_id s]
  refine List.map_congr_left ?_
  intro a ha
  have hne : ¬(a = '_') := fun e => h (e ▸ ha)
  simp [hne]

/-! ## Claim theorems: locale resolver -/

/-- C3: for every locale environment string of the conventional form
`lang_REGION.enc` (the language and region parts free of the `.`, `_` and,
for the region, `-` delimiters), the locale-resolution step succeeds,
yielding `locale = lang-REGION` and `country = REGION`. -/
theorem locale_resolution_conventional (lang region enc : List Char)
    (hl1 : '.' ∉ lang) (hl2 : '_' ∉ lang)
    (hr1 : '.' ∉ region) (hr2 : '_' ∉ region) (hr3 : '-' ∉ region) :
    resolveLocale (lang ++ '_' :: region ++ '.' :: enc) =
      Except.ok (lang ++ '-' :: region, region) := by
  have hdot : '.' ∉ lang ++ '_' :: region := by
    intro hm
    rcases List.mem_append.mp hm with h | h
    · exact hl1 h
    · rcases List.mem_cons.mp h with h | h
      · exact absurd h (by decide)
      · exact hr1 h
  have heq : lang ++ '_' :: region ++ '.' :: enc
      = (lang ++ '_' :: region) ++ '.' :: enc := by simp
  have hsplit1 : splitOnC '.' (lang ++ '_' :: region ++ '.' :: enc)
      = (lang ++ '_' :: region) :: splitOnC '.' enc := by
    rw [heq, splitOnC_append, splitOnC_eq_single hdot, List.cons_append,
      List.nil_append]
  have hloc : replUnderscore (lang ++ '_' :: region) = lang ++ '-' :: region := by
    show List.map (fun c => if c = '_' then '-' else c) (lang ++ '_' :: region)
        = lang ++ '-' :: region
    rw [List.map_append, List.map_cons]
    rw [show List.map (fun c => if c = '_' then '-' else c) lang
        = replUnderscore lang from rfl,
      show List.map (fun c => if c = '_' then '-' else c) region
        = replUnderscore region from rfl,
      replUnderscore_eq_self hl2, replUnderscore_eq_self hr2]
    simp
  have hsplit2 : splitOnC '-' (lang ++ '-' :: region)
      = splitOnC '-' lang ++ [region] := by
    rw [splitOnC_append, splitOnC_eq_single hr3]
  simp only [resolveLocale]
  rw [hsplit1]
  rw [if_pos (by simp)]
  simp only [List.headD_cons]
  rw [hloc, hsplit2]
  rw [if_pos (by simp)]
  rw [List.getLastD_concat]

/-- Witness for C3 at the spec's own example: `en_US.UTF-8` resolves to
locale `en-US` and country `US`. -/
theorem locale_resolution_conventional_witness :
    resolveLocale ['e', 'n', '_', 'U', 'S', '.', 'U', 'T', 'F', '-', '8']
      = Except.ok (['e', 'n', '-', 'U', 'S'], ['U', 'S']) :=
  locale_resolution_conventional ['e', 'n'] ['U', 'S'] ['U', 'T', 'F', '-', '8']
    (by decide) (by decide) (by decide) (by decide) (by decide)

/-- C4 counterexample: the empty `LANG` value cannot be split into a
non-empty first dot-segment, yet the locale-resolution step does not fail —
it succeeds and proceeds with an empty locale and an empty country. -/
theorem locale_parse_error_counterexample :
    resolveLocale [] = Except.ok ([], []) := rfl

/-- C4 amended: Go's `strings.Split` always returns at least one segment,
so both parse-error branches are unreachable: the locale-resolution step
succeeds on every input, proceeding with a possibly empty locale and
country instead of returning an error. -/
theorem resolveLocale_never_errors (lang : List Char) :
    ∃ p, resolveLocale lang = Except.ok p := by
  simp only [resolveLocale]
  rw [if_pos (splitOnC_length_ne_zero '.' lang),
    if_pos (splitOnC_length_ne_zero '-' _)]
  exact ⟨_, rfl⟩

/-! ## Claim theorems: retention manager, preserve = 0 -/

/-- C2: running the cleanup with retention count 0 performs no deletion at
all — the directory is returned untouched whatever it contains. -/
theorem cleanImages_zero (dir : List FileInfo) : cleanImages 0 dir = dir := by
  simp [cleanImages]

/-! ## Claim theorems: retention manager, preserve ≥ 1 -/

theorem cleanImages_of_le (k : Nat) (dir : List FileInfo) (hk : k ≠ 0)
    (hle : (dir.filter isManaged).length ≤ k) :
    cleanImages k dir = dir := by
  simp only [cleanImages]
  rw [if_neg hk, if_pos hle]

theorem cleanImages_of_gt (k : Nat) (dir : List FileInfo) (hk : k ≠ 0)
    (hgt : ¬((dir.filter isManaged).length ≤ k)) :
    cleanImages k dir
      = dir.filter (fun f =>
        ! (List.take ((dir.filter isManaged).length - k)
            (List.insertionSort timeLe (dir.filter isManaged))).any
          (fun d => d.name == f.name)) := by
  simp only [cleanImages]
  rw [if_neg hk, if_neg hgt]

theorem symm_name_ne : Symmetric (fun a b : FileInfo => a.name ≠ b.name) :=
  fun _ _ h e => h e.symm

theorem symm_time_ne : Symmetric (fun a b : FileInfo => a.modTime ≠ b.modTime) :=
  fun _ _ h e => h e.symm

theorem name_inj_of_pairwise {dir : List FileInfo}
    (hnames : dir.Pairwise (fun a b => a.name ≠ b.name)) :
    ∀ a ∈ dir, ∀ b ∈ dir, a.name = b.name → a = b := by
  intro a ha b hb hab
  by_contra hne
  exact List.Pairwise.forall symm_name_ne hnames ha hb hne hab

/-- C1: with retention count `k ≥ 1`, pairwise distinct entry names and
pairwise distinct modification times among the `N` managed files, the
cleanup (i) only deletes entries, (ii) keeps exactly `min N k` managed
files — so nothing is deleted when `N ≤ k` — (iii) keeps every non-managed
entry, and (iv) every deleted entry is a managed file strictly older than
every surviving managed file: the `min N k` most recently modified managed
files survive and the `N - k` oldest are deleted. -/
theorem cleanImages_retention (k : Nat) (dir : List FileInfo)
    (hk : 1 ≤ k)
    (hnames : dir.Pairwise (fun a b => a.name ≠ b.name))
    (htimes : (dir.filter isManaged).Pairwise (fun a b => a.modTime ≠ b.modTime)) :
    (cleanImages k dir).Sublist dir ∧
    ((cleanImages k dir).filter isManaged).length
      = min (dir.filter isManaged).length k ∧
    (∀ f ∈ dir, isManaged f = false → f ∈ cleanImages k dir) ∧
    (∀ f ∈ dir, f ∉ cleanImages k dir →
      isManaged f = true ∧
      ∀ g ∈ cleanImages k dir, isManaged g = true → f.modTime < g.modTime) := by
  have hk0 : k ≠ 0 := by omega
  by_cases hle : (dir.filter isManaged).length ≤ k
  · rw [cleanImages_of_le k dir hk0 hle]
    exact ⟨List.Sublist.refl dir, (Nat.min_eq_left hle).symm,
      fun f hf _ => hf, fun f hf hnf => absurd hf hnf⟩
  · rw [cleanImages_of_gt k dir hk0 hle]
    set files := dir.filter isManaged with hfiles
    set sorted := List.insertionSort timeLe files with hsorted_def
    set toDelete := List.take (files.length - k) sorted with htd_def
    set kept := List.drop (files.length - k) sorted with hkept_def
    have hNgt : k < files.length := by omega
    have hperm : sorted.Perm files := List.perm_insertionSort timeLe files
    have hsorted : List.Sorted timeLe sorted := List.sorted_insertionSort timeLe files
    have hfsub : files.Sublist dir := List.filter_sublist dir
    have hinj : ∀ a ∈ dir, ∀ b ∈ dir, a.name = b.name → a = b :=
      name_inj_of_pairwise hnames
    have htdsub : ∀ d ∈ toDelete, d ∈ files := fun d hd =>
      (hperm.mem_iff).mp (List.take_subset _ _ hd)
    have htddir : ∀ d ∈ toDelete, d ∈ dir := fun d hd => hfsub.subset (htdsub d hd)
    have hfilter_eq : dir.filter (fun f => ! toDelete.any (fun d => d.name == f.name))
        = dir.filter (fun f => decide (f ∉ toDelete)) := by
      apply List.filter_congr
      intro f hf
      by_cases hmem : f ∈ toDelete
      · have hany : toDelete.any (fun d => d.name == f.name) = true :=
          List.any_eq_true.mpr ⟨f, hmem, by simp⟩
        simp [hany, hmem]
      · have hany : toDelete.any (fun d => d.name == f.name) = false := by
          rw [List.any_eq_false]
          intro d hd h
          have hdn : d.name = f.name := by simpa using h
          exact hmem ((hinj d (htddir d hd) f hf hdn) ▸ hd)
        simp [hany, hmem]
    rw [hfilter_eq]
    set result := dir.filter (fun f => decide (f ∉ toDelete)) with hres
    have hmem_res : ∀ f, f ∈ result ↔ (f ∈ dir ∧ f ∉ toDelete) := by
      intro f
      rw [hres, List.mem_filter]
      simp
    have hnd_dir : dir.Nodup :=
      hnames.imp (fun h e => h (congrArg FileInfo.name e))
    have hnd_files : files.Nodup := List.Nodup.sublist hfsub hnd_dir
    have hnd_sorted : sorted.Nodup := (hperm.nodup_iff).mpr hnd_files
    have hsplit : toDelete ++ kept = sorted := List.take_append_drop _ _
    have hdisj : ∀ a ∈ kept, a ∉ toDelete := by
      have hnd2 := hnd_sorted
      rw [← hsplit] at hnd2
      rcases List.nodup_append.mp hnd2 with ⟨-, -, hd⟩
      exact fun a ha hmem => hd hmem ha
    have hcount : (result.filter isManaged).length = k := by
      have h1 : result.filter isManaged
          = files.filter (fun f => decide (f ∉ toDelete)) := by
        rw [hres, List.filter_filter, hfiles, List.filter_filter]
        apply List.filter_congr
        intro a _
        exact Bool.and_comm _ _
      have h2 : (files.filter (fun f => decide (f ∉ toDelete))).length
          = (sorted.filter (fun f => decide (f ∉ toDelete))).length :=
        ((hperm.filter _).length_eq).symm
      have hA : toDelete.filter (fun f => decide (f ∉ toDelete)) = [] := by
        apply List.filter_eq_nil_iff.mpr
        intro a ha
        simp [ha]
      have hB : kept.filter (fun f => decide (f ∉ toDelete)) = kept := by
        apply List.filter_eq_self.mpr
        intro a ha
        simp [hdisj a ha]
      have h3 : sorted.filter (fun f => decide (f ∉ toDelete)) = kept := by
        conv_lhs => rw [← hsplit]
        rw [List.filter_append, hA, hB, List.nil_append]
      have h4 : kept.length = files.length - (files.length - k) := by
        rw [hkept_def, List.length_drop, hperm.length_eq]
      rw [h1, h2, h3, h4]
      omega
    have hnonmanaged : ∀ f ∈ dir, isManaged f = false → f ∈ result := by
      intro f hf hnm
      refine (hmem_res f).mpr ⟨hf, ?_⟩
      intro hmem
      have hfl : f ∈ files := htdsub f hmem
      rw [hfiles] at hfl
      have := List.of_mem_filter hfl
      rw [hnm] at this
      exact absurd this (by simp)
    have hdeleted : ∀ f ∈ dir, f ∉ result →
        isManaged f = true ∧
        ∀ g ∈ result, isManaged g = true → f.modTime < g.modTime := by
      intro f hf hfnot
      have hftd : f ∈ toDelete := by
        by_contra hmem
        exact hfnot ((hmem_res f).mpr ⟨hf, hmem⟩)
      have hffiles : f ∈ files := htdsub f hftd
      have hfm : isManaged f = true := by
        have hfl := hffiles
        rw [hfiles] at hfl
        exact List.of_mem_filter hfl
      refine ⟨hfm, ?_⟩
      intro g hg hgm
      have hgdir : g ∈ dir := ((hmem_res g).mp hg).1
      have hgtd : g ∉ toDelete := ((hmem_res g).mp hg).2
      have hgfiles : g ∈ files := by
        rw [hfiles]
        exact List.mem_filter.mpr ⟨hgdir, hgm⟩
      have hgsorted : g ∈ sorted := (hperm.mem_iff).mpr hgfiles
      have hgkept : g ∈ kept := by
        rw [← hsplit] at hgsorted
        rcases List.mem_append.mp hgsorted with h | h
        · exact absurd h hgtd
        · exact h
      have hfle : timeLe f g := by
        have hp : List.Pairwise timeLe (toDelete ++ kept) := by
          rw [hsplit]
          exact hsorted
        rcases List.pairwise_append.mp hp with ⟨-, -, hrel⟩
        exact hrel f hftd g hgkept
      have hne : f.modTime ≠ g.modTime := by
        have hfg : f ≠ g := fun e => hgtd (e ▸ hftd)
        exact List.Pairwise.forall symm_time_ne htimes hffiles hgfiles hfg
      exact lt_of_le_of_ne hfle hne
    refine ⟨List.filter_sublist dir, ?_, hnonmanaged, hdeleted⟩
    rw [Nat.min_eq_right (le_of_lt hNgt)]
    exact hcount

/-- Witness for C1: a directory with three managed images (times 1, 3, 2)
and one foreign file, cleaned with retention count 2, satisfies every
conjunct of the retention theorem. -/
theorem cleanImages_retention_witness :
    ((1 : Nat) ≤ 2 ∧
      wdir.Pairwise (fun a b => a.name ≠ b.name) ∧
      (wdir.filter isManaged).Pairwise (fun a b => a.modTime ≠ b.modTime)) ∧
    ((cleanImages 2 wdir).Sublist wdir ∧
      ((cleanImages 2 wdir).filter isManaged).length
        = min (wdir.filter isManaged).length 2 ∧
      (∀ f ∈ wdir, isManaged f = false → f ∈ cleanImages 2 wdir) ∧
      (∀ f ∈ wdir, f ∉ cleanImages 2 wdir →
        isManaged f = true ∧
        ∀ g ∈ cleanImages 2 wdir, isManaged g = true →
          f.modTime < g.modTime)) :=
  ⟨⟨by decide, by decide, by decide⟩,
    cleanImages_retention 2 wdir (by decide) (by decide) (by decide)⟩

/-! ## Claim theorems: metadata client -/

/-- C5: for every response whose envelope decodes to a non-empty items
list and whose first item's embedded string parses to JSON of the shape
`ad.landscapeImage.asset = U`, the client returns exactly `U`. -/
theorem metadata_roundtrip (parse : String → Option Json) (resBody : String)
    (j : Json) (items : List BodyItem) (url : String)
    (hparse : parse resBody = some j)
    (hbody : decodeBody j = some items)
    (hne : items ≠ [])
    (hinner : parse ((items.headD ⟨""⟩).item)
      = some (Json.obj [("ad", Json.obj [("landscapeImage",
          Json.obj [("asset", Json.str url)])])])) :
    getImageUrl parse 200 resBody = Except.ok url := by
  have hlen : ¬(items.length = 0) := fun h0 => hne (List.length_eq_zero.mp h0)
  simp only [getImageUrl]
  rw [if_neg (by simp)]
  simp only [hparse]
  simp only [hbody]
  rw [if_neg hlen]
  simp only [hinner]
  rfl

/-- Witness for C5 at the specification's round-trip example: the client
returns `http://x/img.jpg`. -/
theorem metadata_roundtrip_witness :
    getImageUrl parse0 200 "outerpayload" = Except.ok "http://x/img.jpg" :=
  metadata_roundtrip parse0 "outerpayload" outerJson0 [⟨"innerpayload"⟩]
    "http://x/img.jpg" rfl rfl (by decide) rfl

/-- C6: when the outer envelope decodes successfully but its items list is
empty, the client fails with the empty-result error and returns no URL. -/
theorem metadata_empty_items (parse : String → Option Json) (resBody : String)
    (j : Json)
    (hparse : parse resBody = some j)
    (hbody : decodeBody j = some []) :
    getImageUrl parse 200 resBody
      = Except.error "microsoft api response body contains no images" := by
  simp only [getImageUrl]
  rw [if_neg (by simp)]
  simp only [hparse]
  simp only [hbody]
  rfl

/-- Witness for C6: a concrete envelope with an empty items list produces
the empty-result error. -/
theorem metadata_empty_items_witness :
    getImageUrl parseEmpty0 200 "outerpayload"
      = Except.error "microsoft api response body contains no images" :=
  metadata_empty_items parseEmpty0 "outerpayload" outerEmpty0 rfl rfl

/-! ## Claim theorems: image acquirer -/

theorem newImage_blocks_duplicate (url body : List Char) (createOk : Bool)
    (copy : CopyOutcome) (dir : List (List Char × List Char))
    (e : List Char × List Char) (he : e ∈ dir)
    (hn : e.1 = imagePfx ++ baseName url) :
    newImage url body 200 DirStat.isDir createOk copy dir
      = (Except.error "image already exists", dir) := by
  have hany : dir.any (fun f => f.1 == imagePfx ++ baseName url) = true :=
    List.any_eq_true.mpr ⟨e, he, by simp [hn]⟩
  simp only [newImage]
  rw [if_neg (by simp)]
  simp [hany]

/-- C7: when the target directory already contains a file named
`prefix ++ basename(url)`, `newImage` fails with the already-exists error
before creating or writing anything: the directory, in particular the
existing file's contents, is unchanged, whatever the create and copy stages
would have done. -/
theorem newImage_already_exists (url body content : List Char)
    (createOk : Bool) (copy : CopyOutcome)
    (dir : List (List Char × List Char))
    (hmem : (imagePfx ++ baseName url, content) ∈ dir) :
    newImage url body 200 DirStat.isDir createOk copy dir
      = (Except.error "image already exists", dir) :=
  newImage_blocks_duplicate url body createOk copy dir _ hmem rfl

/-- Witness for C7: acquiring `http://x/img.jpg` into a directory that
already holds `gnome-spotlight_img.jpg` fails and leaves the old contents
in place. -/
theorem newImage_already_exists_witness :
    newImage "http://x/img.jpg".data "newbody".data 200 DirStat.isDir true
        CopyOutcome.success [("gnome-spotlight_img.jpg".data, "oldbody".data)]
      = (Except.error "image already exists",
        [("gnome-spotlight_img.jpg".data, "oldbody".data)]) :=
  newImage_already_exists "http://x/img.jpg".data "newbody".data "oldbody".data
    true CopyOutcome.success _ (by decide)

/-- C8: on a successful acquisition — status 200, directory present, no
name collision, create and copy succeed — `newImage` returns both the
number of bytes written (the full body length) and the final path of the
created file, `prefix ++ basename(url)` inside the target directory, and
the directory gains exactly that file holding the full body. -/
theorem newImage_success (url body : List Char)
    (dir : List (List Char × List Char))
    (hfree : ∀ e ∈ dir, e.1 ≠ imagePfx ++ baseName url) :
    newImage url body 200 DirStat.isDir true CopyOutcome.success dir
      = (Except.ok (body.length, imagePfx ++ baseName url),
        (imagePfx ++ baseName url, body) :: dir) := by
  have hany : dir.any (fun f => f.1 == imagePfx ++ baseName url) = false := by
    rw [List.any_eq_false]
    intro e he
    simp [hfree e he]
  simp only [newImage]
  rw [if_neg (by simp)]
  simp [hany]

/-- Witness for C8: downloading a 10-byte body for `http://x/img.jpg` into
an empty directory returns 10 bytes and the name
`gnome-spotlight_img.jpg`, which now holds the body. -/
theorem newImage_success_witness :
    newImage "http://x/img.jpg".data "imagebytes".data 200 DirStat.isDir true
        CopyOutcome.success []
      = (Except.ok (10, "gnome-spotlight_img.jpg".data),
        [("gnome-spotlight_img.jpg".data, "imagebytes".data)]) :=
  newImage_success "http://x/img.jpg".data "imagebytes".data []
    (fun e he => (List.not_mem_nil e he).elim)

/-- C10: a copy failure after file creation leaves the partially written
managed file in the directory — `prefix ++ basename(url)` holding the
prefix of the body written before the error — and a subsequent acquisition
whose resolved URL has the same basename then fails with the already-exists
error. -/
theorem newImage_partial_write (url url2 body body2 : List Char) (n : Nat)
    (createOk2 : Bool) (copy2 : CopyOutcome)
    (dir : List (List Char × List Char))
    (hfree : ∀ e ∈ dir, e.1 ≠ imagePfx ++ baseName url)
    (hbase : baseName url2 = baseName url) :
    newImage url body 200 DirStat.isDir true (CopyOutcome.failAfter n) dir
      = (Except.error "write image file",
        (imagePfx ++ baseName url, body.take n) :: dir) ∧
    newImage url2 body2 200 DirStat.isDir createOk2 copy2
        ((imagePfx ++ baseName url, body.take n) :: dir)
      = (Except.error "image already exists",
        (imagePfx ++ baseName url, body.take n) :: dir) := by
  constructor
  · have hany : dir.any (fun f => f.1 == imagePfx ++ baseName url) = false := by
      rw [List.any_eq_false]
      intro e he
      simp [hfree e he]
    simp only [newImage]
    rw [if_neg (by simp)]
    simp [hany]
  · exact newImage_blocks_duplicate url2 body2 createOk2 copy2 _
      (imagePfx ++ baseName url, body.take n) (List.mem_cons_self _ _)
      (by rw [hbase])

/-- Witness for C10: a copy of `imagebytes` failing after 4 bytes leaves
`gnome-spotlight_img.jpg` holding `imag`, and a later acquisition of a URL
with basename `img.jpg` fails with the already-exists error. -/
theorem newImage_partial_write_witness :
    (newImage "http://x/img.jpg".data "imagebytes".data 200 DirStat.isDir true
        (CopyOutcome.failAfter 4) []
      = (Except.error "write image file",
        [("gnome-spotlight_img.jpg".data, "imag".data)])) ∧
    (newImage "http://y/img.jpg".data "otherbytes".data 200 DirStat.isDir true
        CopyOutcome.success [("gnome-spotlight_img.jpg".data, "imag".data)]
      = (Except.error "image already exists",
        [("gnome-spotlight_img.jpg".data, "imag".data)])) :=
  newImage_partial_write "http://x/img.jpg".data "http://y/img.jpg".data
    "imagebytes".data "otherbytes".data 4 true CopyOutcome.success []
    (fun e he => (List.not_mem_nil e he).elim) (by decide)

/-! ## Claim theorems: setting writer -/

theorem writeKeysAux_all_ok (store : List Char → List Char → Bool)
    (v : List Char) (ks : List (List Char))
    (h : ∀ k ∈ ks, store k v = true) :
    writeKeysAux store v ks = (Except.ok (), ks.map (fun k => (k, v))) := by
  induction ks with
  | nil => rfl
  | cons k ks ih =>
    have hk : store k v = true := h k (List.mem_cons_self k ks)
    simp only [writeKeysAux, hk, if_true, List.map_cons]
    rw [ih (fun x hx => h x (List.mem_cons_of_mem k hx))]

theorem writeKeysAux_fails (store : List Char → List Char → Bool)
    (v : List Char) (ks1 : List (List Char)) (k : List Char)
    (ks2 : List (List Char))
    (h1 : ∀ x ∈ ks1, store x v = true) (hk : store k v = false) :
    writeKeysAux store v (ks1 ++ k :: ks2)
      = (Except.error "execute dconf write",
        (ks1 ++ [k]).map (fun x => (x, v))) := by
  induction ks1 with
  | nil =>
    simp only [List.nil_append, writeKeysAux, hk]
    rfl
  | cons a ks1 ih =>
    have ha : store a v = true := h1 a (List.mem_cons_self a ks1)
    simp only [List.cons_append, writeKeysAux, ha, if_true, List.map_cons]
    rw [show ks1.append (k :: ks2) = ks1 ++ k :: ks2 from rfl,
      ih (fun x hx => h1 x (List.mem_cons_of_mem a hx))]

/-- C9: a fully successful run of the setting writer issues exactly three
store writes, one per key in the fixed order, each carrying the same quoted
value `file://P`; and when one key's write fails, the invocations already
issued for earlier keys stand (nothing is rolled back) and no later key is
written — the trace is exactly the successful prefix plus the failing
invocation. -/
theorem writeToDconf_spec (store : List Char → List Char → Bool)
    (p : List Char) :
    ((∀ k ∈ dconfKeys, store k (dconfValue p) = true) →
      writeToDconf store p
        = (Except.ok (), dconfKeys.map (fun k => (k, dconfValue p)))) ∧
    (∀ ks1 k ks2, dconfKeys = ks1 ++ k :: ks2 →
      (∀ x ∈ ks1, store x (dconfValue p) = true) →
      store k (dconfValue p) = false →
      writeToDconf store p
        = (Except.error "execute dconf write",
          (ks1 ++ [k]).map (fun x => (x, dconfValue p)))) := by
  constructor
  · intro h
    exact writeKeysAux_all_ok store (dconfValue p) dconfKeys h
  · intro ks1 k ks2 hsplit h1 hk
    unfold writeToDconf
    rw [hsplit]
    exact writeKeysAux_fails store (dconfValue p) ks1 k ks2 h1 hk

/-- Witness for C9: an all-accepting store receives the three writes in
order with the same quoted value, and a store failing on the second key
receives exactly the first two invocations. -/
theorem writeToDconf_spec_witness :
    (writeToDconf storeOk "/tmp/img.jpg".data
      = (Except.ok (),
        dconfKeys.map (fun k => (k, dconfValue "/tmp/img.jpg".data)))) ∧
    (writeToDconf storeFailDark "/tmp/img.jpg".data
      = (Except.error "execute dconf write",
        (["/org/gnome/desktop/background/picture-uri".data]
          ++ ["/org/gnome/desktop/background/picture-uri-dark".data]).map
          (fun x => (x, dconfValue "/tmp/img.jpg".data)))) :=
  ⟨(writeToDconf_spec storeOk ("/tmp/img.jpg".data)).1 (by decide),
   (writeToDconf_spec storeFailDark ("/tmp/img.jpg".data)).2
     ["/org/gnome/desktop/background/picture-uri".data]
     "/org/gnome/desktop/background/picture-uri-dark".data
     ["/org/gnome/desktop/screensaver/picture-uri".data]
     (by decide) (by decide) (by decide)⟩

end Spotlight
